import Mathlib

/-!
Verification development for the schema-dts ontology-to-TypeScript generator.

The definitions below are shallow embeddings of the generator's source files:
`src/lib/jsonld.ts`, `src/lib/wellKnown.ts`, `src/lib/toClass.ts`,
`src/lib/toProperty.ts`, `src/generator/run.ts` (the JSON-LD pipeline), and
`src/ts/class.ts` (the type-expression synthesizer).  TypeScript classes with
mutable linked object graphs are modelled as registries (association lists from
identifier to a record of the class's accumulated fields); exceptions are
modelled with `Except`; JavaScript's stable `Array.prototype.sort` is modelled
with `List.insertionSort`; `String.prototype.localeCompare` is modelled as
code-unit lexicographic comparison, which is what the source's own doc comment
on `Sort` describes ("class names are ordered alphabetically in UTF-16 code
units order").
-/

namespace SchemaDts

/-! ## String comparison

Model of `a.localeCompare(b)`: negative when `a` sorts first, `0` when they
compare equal, positive when `b` sorts first. -/

/-- Lexicographic strict comparison of character lists (code-point order). -/
def charListLt : List Char → List Char → Bool
  | [], [] => false
  | [], _ :: _ => true
  | _ :: _, [] => false
  | a :: as, b :: bs =>
      if a < b then true
      else if b < a then false
      else charListLt as bs

/-- Lexicographic strict comparison of strings, computed on the character
lists so that concrete instances evaluate inside the kernel. -/
def strLt (a b : String) : Bool := charListLt a.data b.data

/-- Three-way string comparison standing in for `localeCompare`. -/
def localeCompare (a b : String) : Int :=
  if strLt a b then -1 else if strLt b a then 1 else 0

/-- Model of `String.prototype.startsWith`, computed on the character list so
that concrete instances evaluate inside the kernel. -/
def strStartsWith (s pre : String) : Bool :=
  pre.data.isPrefixOf s.data

/-! ## JSON-LD data model, from `src/lib/jsonld.ts` -/

/-- The `JsonLdStringValue`: a plain string or a language-tagged value object. -/
inductive LdString where
  | plain (value : String)
  | tagged (language : String) (value : String)
deriving DecidableEq, Repr

/-- The `JsonLdObjectReference`: an object holding only an `@id` key. -/
structure LdRef where
  id : String
deriving DecidableEq, Repr

/-- The `JsonLdItem<T> = T | ReadonlyArray<T>`. -/
inductive LdItem (α : Type) where
  | one (item : α)
  | many (items : List α)
deriving DecidableEq, Repr

/-- The `ToArray` from jsonld.ts: absent values give `[]`, arrays give themselves,
a single value gives a one-element array. -/
def ToArray {α : Type} : Option (LdItem α) → List α
  | none => []
  | some (.one x) => [x]
  | some (.many xs) => xs

/-- The `JsonLdGraphItem` together with the discriminating keys used by the
member-level predicates `IsSourceOnly`, `IsSoftwareVersionOnly` and
`IsCloseMatch` (those raw members carry a provenance key and no `@type`; we
record the presence of each such key as a flag). -/
structure JsonLdGraphItem where
  id : String
  types : Option (LdItem String) := none
  comment : Option (LdItem LdString) := none
  label : Option (LdItem LdString) := none
  subClassOf : Option (LdItem LdRef) := none
  domainIncludes : Option (LdItem LdRef) := none
  rangeIncludes : Option (LdItem LdRef) := none
  supersededBy : Option (LdItem LdRef) := none
  hasSourceKey : Bool := false
  hasSoftwareVersionKey : Bool := false
  hasCloseMatchKey : Bool := false
deriving DecidableEq, Repr

/-- A member of a `@graph`: either an item or a nested sub-graph. -/
inductive JsonLdGraphMember where
  | item (it : JsonLdGraphItem)
  | subgraph (members : List JsonLdGraphMember)
deriving Repr

/-- The `IsSourceOnly`: has the dc `source` key and no `@type`. -/
def IsSourceOnly (m : JsonLdGraphItem) : Bool :=
  m.hasSourceKey && m.types == none

/-- The `IsSoftwareVersionOnly`: has the `softwareVersion` key and no `@type`. -/
def IsSoftwareVersionOnly (m : JsonLdGraphItem) : Bool :=
  m.hasSoftwareVersionKey && m.types == none

/-- The `IsCloseMatch`: has the skos `closeMatch` key and no `@type`. -/
def IsCloseMatch (m : JsonLdGraphItem) : Bool :=
  m.hasCloseMatchKey && m.types == none

/-- The `IsTestComment`: the meta.schema.org placeholder member. -/
def IsTestComment (m : JsonLdGraphItem) : Bool :=
  m.id == "http://meta.schema.org/"

/-! ## Subject-keyed map, modelling the JavaScript `Map` in `group`

A JavaScript `Map` preserves insertion order; `set` on an existing key keeps
the entry's position.  We model it as an association list where updating keeps
the position and inserting appends. -/

/-- Insertion-ordered map from identifiers to graph items. -/
abbrev GroupMap := List (String × JsonLdGraphItem)

/-- The `map.get(k)`. -/
def mapGet (m : GroupMap) (k : String) : Option JsonLdGraphItem :=
  match m with
  | [] => none
  | (k₀, v₀) :: rest => if k₀ == k then some v₀ else mapGet rest k

/-- The `map.set(k, v)`: update in place when present, append when absent. -/
def mapSet (m : GroupMap) (k : String) (v : JsonLdGraphItem) : GroupMap :=
  match m with
  | [] => [(k, v)]
  | (k₀, v₀) :: rest =>
      if k₀ == k then (k₀, v) :: rest else (k₀, v₀) :: mapSet rest k v

/-! ## Topic merging, from `src/generator/run.ts` -/

/-- First-occurrence deduplication, modelling `new Set([...]).values()`
(JavaScript `Set` keeps the first occurrence of each element). -/
def dedupFirstAux (seen : List String) : List String → List String
  | [] => []
  | x :: xs =>
      if x ∈ seen then dedupFirstAux seen xs
      else x :: dedupFirstAux (x :: seen) xs

/-- First-occurrence deduplication of a string list. -/
def dedupFirst (l : List String) : List String := dedupFirstAux [] l

/-- The `combineString`: set-union of two optional string-or-array values,
deduplicated keeping first occurrences. -/
def combineString (first second : Option (LdItem String)) : List String :=
  dedupFirst (ToArray first ++ ToArray second)

/-- The `combineRef`: set-union of two optional reference-or-array values,
deduplicated by `@id` keeping first occurrences. -/
def combineRef (first second : Option (LdItem LdRef)) : List LdRef :=
  (dedupFirst ((ToArray first ++ ToArray second).map LdRef.id)).map LdRef.mk

/-- The merge performed in `group` when two raw declarations share an `@id`:
comment and label are overwritten when the new member supplies one (last write
wins; the duplicate is only logged), while domain-includes, range-includes,
subclass-of and type tags merge by set union. -/
def mergeItems (existing member : JsonLdGraphItem) : JsonLdGraphItem :=
  let m₁ := if member.comment.isSome then { existing with comment := member.comment }
            else existing
  let m₂ := if member.label.isSome then { m₁ with label := member.label } else m₁
  let m₃ := if member.domainIncludes.isSome then
              { m₂ with
                  domainIncludes :=
                    some (.many (combineRef m₂.domainIncludes member.domainIncludes)) }
            else m₂
  let m₄ := if member.rangeIncludes.isSome then
              { m₃ with
                  rangeIncludes :=
                    some (.many (combineRef m₃.rangeIncludes member.rangeIncludes)) }
            else m₃
  let m₅ := if member.subClassOf.isSome then
              { m₄ with
                  subClassOf :=
                    some (.many (combineRef m₄.subClassOf member.subClassOf)) }
            else m₄
  if member.types.isSome then
    { m₅ with types := some (.many (combineString m₅.types member.types)) }
  else m₅

/-- The per-item step of `group`: drop provenance-only and test members,
insert new subjects, merge duplicate subjects. -/
def groupItemStep (acc : GroupMap) (member : JsonLdGraphItem) : GroupMap :=
  if IsSourceOnly member || IsSoftwareVersionOnly member || IsCloseMatch member then
    acc
  else if IsTestComment member then
    acc
  else
    match mapGet acc member.id with
    | some existing => mapSet acc member.id (mergeItems existing member)
    | none => mapSet acc member.id member

/-- The `group`, from run.ts: fold the (possibly nested) graph members into the
subject-keyed map, recursing into sub-graphs. -/
def group : List JsonLdGraphMember → GroupMap → GroupMap
  | [], acc => acc
  | .subgraph g :: rest, acc => group rest (group g acc)
  | .item member :: rest, acc => group rest (groupItemStep acc member)

/-! ## Well-known vocabulary, from `src/lib/wellKnown.ts` -/

/-- The `GetComments`: collect the comments matching the preferred language,
dropping language-tagged values in other languages and empty strings (the
source filters with JavaScript truthiness). -/
def GetComments (item : JsonLdGraphItem) (preferredLanguage : String) : List String :=
  (((ToArray item.comment).map (fun c =>
      match c with
      | .plain s => some s
      | .tagged language v =>
          if language == preferredLanguage then some v else none)).filterMap id).filter
    (fun c => c != "")

/-- The `GetSubClassOf`: the `@id`s of the item's `rdfs:subClassOf` references. -/
def GetSubClassOf (item : JsonLdGraphItem) : List String :=
  (ToArray item.subClassOf).map LdRef.id

/-- The `GetTypes`: the item's type tags; `file:` subjects yield `[]`; a missing
or empty `@type` is an error. -/
def GetTypes (item : JsonLdGraphItem) : Except String (List String) :=
  if strStartsWith item.id "file:" then .ok []
  else
    match item.types with
    | some (.many ts) =>
        if ts.isEmpty then .error ("Empty type found for item " ++ item.id)
        else .ok ts
    | some (.one t) => .ok [t]
    | none => .error ("No type found for item " ++ item.id ++ ".")

/-- The `IsClassType`: the `rdfs:Class` meta-type tag. -/
def IsClassType (type : String) : Bool := type == "rdfs:Class"

/-- The `IsPropertyType`: the `rdf:Property` meta-type tag. -/
def IsPropertyType (type : String) : Bool := type == "rdf:Property"

/-- The `IsDataType`: the schema.org `DataType` meta-type tag. -/
def IsDataType (type : String) : Bool := type == "http://schema.org/DataType"

/-- The `HasEnumType`: true when some type tag is none of the three well-known
meta-types (Class, Property, DataType). -/
def HasEnumType (types : List String) : Bool :=
  types.any (fun type => !(IsClassType type || IsPropertyType type || IsDataType type))

/-- Character-level scan returning the segment after the last slash. -/
def lastSegAux : List Char → List Char → List Char
  | [], acc => acc.reverse
  | c :: rest, acc =>
      if c == '/' then lastSegAux rest [] else lastSegAux rest (c :: acc)

/-- Modelled from the spec: `toScopedName` (the old generation's `names.ts` is
not under `src/`); it derives a declaration name from a subject identifier,
here the segment after the last slash, matching the spec's "stable
name-bearing identifier". -/
def toScopedName (id : String) : String :=
  ⟨lastSegAux id.data []⟩

/-! ## Old-generation property nodes, from `src/lib/toProperty.ts` -/

/-- A property signature as emitted by `createPropertySignature`: the string
literal name, whether the signature is optional (carries a question token),
and its type (parameterized so it can appear nested inside `TypeNode`). -/
structure PropSigF (τ : Type) where
  name : String
  optional : Bool
  type : τ

/-- Type-expression tree, the small closed tagged-variant language the
synthesizer emits (`createTypeReferenceNode`, `createTypeLiteralNode`,
`createIntersectionTypeNode`, `createUnionTypeNode`, `createParenthesizedType`,
`createLiteralTypeNode(createStringLiteral ...)`, `createArrayTypeNode`,
`createKeywordTypeNode(SyntaxKind.NeverKeyword)`). -/
inductive TypeNode where
  | reference (name : String)
  | typeLiteral (members : List (PropSigF TypeNode))
  | intersectionOf (members : List TypeNode)
  | unionOf (members : List TypeNode)
  | parenthesized (node : TypeNode)
  | stringLiteralType (value : String)
  | arrayType (node : TypeNode)
  | neverKeyword

/-- A concrete property signature. -/
abbrev PropSig := PropSigF TypeNode

/-- The type of an old-generation `Property`: either a resolved `PropertyType`
(we record its comment and the identifiers of its resolved range classes) or a
`StringLiteralType`. -/
inductive OldPropType where
  | propertyRange (comment : Option String) (types : List String)
  | stringLiteral (value : String)
deriving Repr

/-- The `Property` from toProperty.ts: a key and a type. -/
structure OldProperty where
  key : String
  type : OldPropType
deriving Repr

/-- The `Property.required()`: reserved structural markers (keys starting with
`@`) are required. -/
def OldProperty.required (p : OldProperty) : Bool :=
  strStartsWith p.key "@"

/-- The `Property.scalarTypeNode()`: a literal for `StringLiteralType`; for a
resolved range, `never` when empty, the single reference when a singleton, and
a union otherwise. -/
def OldProperty.scalarTypeNode (p : OldProperty) : TypeNode :=
  match p.type with
  | .stringLiteral value => .stringLiteralType value
  | .propertyRange _ types =>
      match types.map (fun t => TypeNode.reference (toScopedName t)) with
      | [] => .neverKeyword
      | [t] => t
      | ts => .unionOf ts

/-- The `Property.typeNode()`: scalar only for `@`-keys, otherwise the union of
the scalar with an array of it. -/
def OldProperty.typeNode (p : OldProperty) : TypeNode :=
  let node := p.scalarTypeNode
  if strStartsWith p.key "@" then node
  else .unionOf [node, .arrayType node]

/-- The `Property.toNode()`: the emitted property signature; the question token is
present exactly when the property is not required. -/
def OldProperty.toNode (p : OldProperty) : PropSig :=
  { name := p.key, optional := !p.required, type := p.typeNode }

/-! ## Old-generation class registry, from `src/lib/toClass.ts` -/

/-- The accumulating state of a `Class` (or `Builtin`) from toClass.ts: the
constructing item, the resolved comment, parent/child edges (by identifier),
owned properties, attached enum members (by the member item's identifier), and
for Builtins the aliased primitive and its fixed documentation. -/
structure OldClass where
  item : JsonLdGraphItem
  comment : Option String := none
  children : List String := []
  parents : List String := []
  props : List OldProperty := []
  enums : List String := []
  builtin : Option (String × String) := none
deriving Repr

/-- Registry mapping identifiers to classes (a JavaScript `Map`, insertion
ordered). -/
abbrev OldReg := List (String × OldClass)

/-- Registry lookup. -/
def oldGet (m : OldReg) (k : String) : Option OldClass :=
  match m with
  | [] => none
  | (k₀, v₀) :: rest => if k₀ == k then some v₀ else oldGet rest k

/-- Registry `set`: update in place when present, append when absent. -/
def oldSet (m : OldReg) (k : String) (v : OldClass) : OldReg :=
  match m with
  | [] => [(k, v)]
  | (k₀, v₀) :: rest =>
      if k₀ == k then (k₀, v) :: rest else (k₀, v₀) :: oldSet rest k v

/-- In-place mutation of the class stored under `k` (a no-op when absent,
which never happens after forward declaration). -/
def oldUpdate (m : OldReg) (k : String) (f : OldClass → OldClass) : OldReg :=
  match m with
  | [] => []
  | (k₀, v₀) :: rest =>
      if k₀ == k then (k₀, f v₀) :: rest else (k₀, v₀) :: oldUpdate rest k f

/-- The identifiers of the registry in insertion order. -/
def oldKeys (m : OldReg) : List String := m.map Prod.fst

/-- The `new Builtin(name, equivTo, doc)`: the seeded item carries the schema.org
identifier, an empty `@type`, the name as label and the doc as comment. -/
def mkBuiltin (name equivTo doc : String) : OldClass :=
  { item := { id := "http://schema.org/" ++ name,
              types := some (.one ""),
              comment := some (.one (.plain doc)),
              label := some (.one (.plain name)) },
    builtin := some (equivTo, doc) }

/-- The `wellKnownTypes`: the fixed builtin catalogue seeded before any ontology
fact is processed. -/
def wellKnownTypes : List OldClass :=
  [ mkBuiltin "Text" "string" "Data type: Text.",
    mkBuiltin "Number" "number" "Data type: Number.",
    mkBuiltin "Time" "string"
      "DateTime represented in string, e.g. 2017-01-04T17:10:00-05:00.",
    mkBuiltin "Date" "string" "A date value in ISO 8601 date format.",
    mkBuiltin "DateTime" "string"
      "A combination of date and time of day in the form [-]CCYY-MM-DDThh:mm:ss[Z|(+|-)hh:mm] (see Chapter 5.4 of ISO 8601).",
    mkBuiltin "Boolean" "boolean" "Boolean: True or False." ]

/-- The `IsClass` from toClass.ts: skip native DataTypes, the DataType meta-class
itself, and anything not tagged `rdfs:Class`. -/
def IsClass (item : JsonLdGraphItem) : Except String Bool := do
  let types ← GetTypes item
  if types.any IsDataType then return false
  if IsDataType item.id then return false
  if !(types.any IsClassType) then return false
  return true

/-- Boolean view of `IsClass` (true exactly when `IsClass` succeeds with
`true`). -/
def IsClassB (item : JsonLdGraphItem) : Bool :=
  match IsClass item with
  | .ok b => b
  | .error _ => false

/-- The `Class.init` from toClass.ts: resolve the comment, then resolve the
subclass edges — the source's loop returns after its first iteration, so only
the first parent reference is consumed; an unresolved parent is fatal. -/
def oldInit (lang : String) (cid : String) (reg : OldReg) : Except String OldReg :=
  match oldGet reg cid with
  | none => .ok reg
  | some cls =>
      let comments := GetComments cls.item lang
      let reg₁ :=
        if comments.length > 0 then
          oldUpdate reg cid (fun c => { c with comment := comments.head? })
        else reg
      match GetSubClassOf cls.item with
      | [] => .ok reg₁
      | parentId :: _ =>
          match oldGet reg₁ parentId with
          | some _ =>
              .ok (oldUpdate
                    (oldUpdate reg₁ cid
                      (fun c => { c with parents := c.parents ++ [parentId] }))
                    parentId
                    (fun p => { p with children := p.children ++ [cid] }))
          | none =>
              .error ("Couldn't find parent of " ++ cid ++ ", " ++ parentId)

/-- The per-item step of pass 1: register a fresh class for a class-tagged
item. -/
def forwardStep (acc : OldReg) (item : JsonLdGraphItem) : Except String OldReg := do
  let isC ← IsClass item
  if isC then pure (oldSet acc item.id { item := item }) else pure acc

/-- The `ForwardDeclareClasses`: seed the builtin catalogue, then register a
fresh class for every class-tagged item (pass 1). -/
def ForwardDeclareClasses (items : List JsonLdGraphItem) : Except String OldReg := do
  let seeded : OldReg := wellKnownTypes.map (fun wk => (wk.item.id, wk))
  let classes ← items.foldlM forwardStep seeded
  if classes.length == 0 then .error "Expected Class topics to exist."
  else pure classes

/-- The per-item step of pass 2: resolve a class-tagged item against the
forward declarations. -/
def buildStep (lang : String) (acc : OldReg) (item : JsonLdGraphItem) :
    Except String OldReg := do
  let isC ← IsClass item
  if !isC then pure acc
  else
    match oldGet acc item.id with
    | none =>
        .error ("Class " ++ item.id ++ " should have been forward declared.")
    | some _ => oldInit lang item.id acc

/-- The `BuildClasses`: resolve every class-tagged item against the forward
declarations (pass 2). -/
def BuildClasses (lang : String) (items : List JsonLdGraphItem) (classes : OldReg) :
    Except String OldReg :=
  items.foldlM (buildStep lang) classes

/-- The `ProcessClasses`: the two-phase class graph construction. -/
def ProcessClasses (lang : String) (items : List JsonLdGraphItem) :
    Except String OldReg := do
  let classes ← ForwardDeclareClasses items
  BuildClasses lang items classes

/-- The owner-scan of `EnumValue.init`: skip tags that are the Class or the
DataType meta-type (Property tags are not skipped by this loop); the first
remaining tag must resolve in the registry — attach the member there and stop
— and is a fatal error otherwise; when every tag is skipped, nothing is
attached. -/
def enumAttach (itemId : String) : List String → OldReg → Except String (Option OldReg)
  | [], _ => .ok none
  | type :: rest, map =>
      if IsClassType type || IsDataType type then enumAttach itemId rest map
      else
        match oldGet map type with
        | none => .error ("Couldn't find " ++ type ++ " in classes.")
        | some _ =>
            .ok (some (oldUpdate map type
                        (fun cl => { cl with enums := cl.enums ++ [itemId] })))

/-- The `EnumValue.init` from toClass.ts: run the owner-scan over the item's type
tags; when the member is attached, `init` returns immediately (`true`) and the
comment code never runs; otherwise resolve the comment and finish. The result
records the updated registry and whether the member was attached. -/
def enumInit (lang : String) (item : JsonLdGraphItem) (map : OldReg) :
    Except String (OldReg × Bool) := do
  let types ← GetTypes item
  match ← enumAttach item.id types map with
  | some map' => pure (map', true)
  | none =>
      let _comments := GetComments item lang
      pure (map, false)

/-- The `FindProperties`: the property-tagged topics; zero such topics is an
error. -/
def FindProperties (items : List JsonLdGraphItem) :
    Except String (List JsonLdGraphItem) := do
  let properties ← items.filterM (fun topic => do
    let ts ← GetTypes topic
    pure (ts.any IsPropertyType))
  if properties.isEmpty then .error "Unexpected: Property Topics to exist."
  else pure properties

/-- The per-domain step of `PropertyType.init`: resolve the owning class
(fatal when unresolved) and attach a `Property` sharing the resolved range and
comment. -/
def addPropStep (item : JsonLdGraphItem) (comment : Option String)
    (types : List String) (acc : OldReg) (domain : LdRef) : Except String OldReg :=
  match oldGet acc domain.id with
  | none =>
      .error ("Could not find class for " ++ item.id ++ ", " ++ domain.id ++ ".")
  | some _ =>
      .ok (oldUpdate acc domain.id (fun cl =>
        { cl with props := cl.props ++
            [{ key := toScopedName item.id,
               type := .propertyRange comment types }] }))

/-- The `PropertyType.init` from toProperty.ts: resolve the comment, resolve every
range reference (fatal when unresolved), then attach a `Property` to every
domain class. -/
def propertyInit (lang : String) (item : JsonLdGraphItem) (map : OldReg) :
    Except String OldReg := do
  let comments := GetComments item lang
  let comment := comments.head?
  let types ← (ToArray item.rangeIncludes).mapM (fun ref =>
    match oldGet map ref.id with
    | none => .error ("Class with ID " ++ ref.id ++ " not found.")
    | some _ => .ok ref.id)
  (ToArray item.domainIncludes).foldlM (addPropStep item comment types) map

/-- The property stage of `main` in run.ts. -/
def processProps (lang : String) (items : List JsonLdGraphItem) (classes : OldReg) :
    Except String OldReg := do
  let props ← FindProperties items
  props.foldlM (fun acc p => propertyInit lang p acc) classes

/-- The per-topic step of the enum stage of `main`: topics with an enum type
are processed by `EnumValue.init`. -/
def enumStep (lang : String) (acc : OldReg) (item : JsonLdGraphItem) :
    Except String OldReg := do
  let types ← GetTypes item
  if !HasEnumType types then pure acc
  else do
    let (acc', _) ← enumInit lang item acc
    pure acc'

/-- The enum stage of `main` in run.ts. -/
def processEnums (lang : String) (items : List JsonLdGraphItem) (classes : OldReg) :
    Except String OldReg :=
  items.foldlM (enumStep lang) classes

/-- The resolution stages of `main` applied to the grouped topics: build the
class graph, attach properties, attach enum members. -/
def resolveItems (lang : String) (items : List JsonLdGraphItem) :
    Except String OldReg := do
  let classes ← ProcessClasses lang items
  let classes ← processProps lang items classes
  processEnums lang items classes

/-- The resolution pipeline of `main` in run.ts, up to the point where emission
begins: group the graph members by subject, then run the resolution stages.
All output is written only after this completes, so any fatal error yields no
output at all. -/
def resolveAll (lang : String) (members : List JsonLdGraphMember) :
    Except String OldReg :=
  resolveItems lang ((group members []).map Prod.snd)

/-- The order in which `main` emits class declarations: it iterates
`classes.entries()` of the registry, i.e. registry insertion order. -/
def mainClassOrder (lang : String) (members : List JsonLdGraphMember) :
    Except String (List String) := do
  let classes ← resolveAll lang members
  pure (oldKeys classes)

/-! ## New-generation type synthesizer, from `src/ts/class.ts` -/

/-- Modelled from the spec: a `TSubject` (the `UrlNode` of `triples/types.ts`,
which is not under `src/`) is a stable name-bearing identifier; per §4.6 the
synthesizer distinguishes its "human-readable name" (`toHumanString`) from its
"full canonical identifier string" (`toString`). -/
structure TSubject where
  name : String
  href : String
deriving DecidableEq, Repr

/-- The subject's human-readable name. -/
def TSubject.toHumanString (s : TSubject) : String := s.name

/-- The subject's full canonical identifier. -/
def TSubject.toString (s : TSubject) : String := s.href

/-- The `toClassName` from `src/ts/util/names.ts`: the URL's name part. -/
def toClassName (subject : TSubject) : String := subject.name

/-- The `CompareKeys`: human-readable names first, full identifier strings as the
tie-break. -/
def CompareKeys (a b : TSubject) : Int :=
  let byName := localeCompare a.toHumanString b.toHumanString
  if byName != 0 then byName
  else localeCompare a.toString b.toString

/-- A property owned by a class: either the injected type-discriminant
(`TypeProperty`) or a resolved ontology property.  Modelled from the spec for
the missing `src/ts/property.ts`: a resolved property carries its key subject,
its deprecated flag, and the signature it emits; the discriminant
`TypeProperty` is the reserved `@type` marker, single-valued and mandatory,
whose literal value is the owning class's own name (§4.3, §4.6), and it is
never deprecated. -/
inductive NProp where
  | typeProperty (subject : TSubject)
  | resolved (key : TSubject) (deprecated : Bool) (sig : PropSig)

/-- The sort key of a property. -/
def NProp.key : NProp → TSubject
  | .typeProperty subject => subject
  | .resolved key _ _ => key

/-- Whether the property is deprecated (the discriminant never is). -/
def NProp.deprecated : NProp → Bool
  | .typeProperty _ => false
  | .resolved _ deprecated _ => deprecated

/-- The `Property.toNode`: the emitted signature; the discriminant emits the
mandatory `@type` field whose type is the literal of the class's own name. -/
def NProp.toNode : NProp → PropSig
  | .typeProperty subject =>
      { name := "@type", optional := false,
        type := .stringLiteralType (toClassName subject) }
  | .resolved _ _ sig => sig

/-- The accumulating state of a `Class` from class.ts: subject, resolved
comment, child and parent edges, owned properties, owned enum members (by
their literal value), the classes superseding this one (`_supersededBy`, we
record their subjects, which is all the source ever reads from them), and
whether this is a `Builtin`.  Children and supersession targets are recorded
by subject since the source only ever reads `subject`/`className()` from
them; parents are also traversed transitively, which goes through the
registry. -/
structure NClass where
  subject : TSubject
  comment : Option String := none
  children : List TSubject := []
  parents : List TSubject := []
  props : List NProp := []
  enums : List String := []
  supersededBy : List TSubject := []
  builtin : Bool := false

/-- The `ClassMap`: identifiers (the subject's full URL) to classes. -/
abbrev NReg := List (String × NClass)

/-- Registry lookup. -/
def nGet (m : NReg) (k : String) : Option NClass :=
  match m with
  | [] => none
  | (k₀, v₀) :: rest => if k₀ == k then some v₀ else nGet rest k

/-- In-place mutation of the class stored under `k` (no-op when absent, which
cannot happen for a forward-declared registry). -/
def nUpdate (m : NReg) (k : String) (f : NClass → NClass) : NReg :=
  match m with
  | [] => []
  | (k₀, v₀) :: rest =>
      if k₀ == k then (k₀, f v₀) :: rest else (k₀, v₀) :: nUpdate rest k f

/-- The `Class.aliasesBuiltin`: some parent is a Builtin, or transitively aliases
one.  The source recursion terminates because the parent graph is acyclic
(spec §3 invariant); the fuel bounds the length of a parent chain and any
fuel of at least the registry size is enough on an acyclic registry. -/
def aliasesBuiltin (reg : NReg) : Nat → NClass → Bool
  | 0, _ => false
  | fuel + 1, c =>
      c.parents.any (fun parent =>
        match nGet reg parent.toString with
        | some p => p.builtin || aliasesBuiltin reg fuel p
        | none => false)

/-- The `Class.isLeaf`: no children and no Builtin ancestor. -/
def isLeaf (reg : NReg) (c : NClass) : Bool :=
  c.children.isEmpty && !aliasesBuiltin reg reg.length c

/-- Comparison used to sort properties by their keys. -/
def propLE (a b : NProp) : Prop := CompareKeys a.key b.key ≤ 0

instance : DecidableRel propLE :=
  fun a b => inferInstanceAs (Decidable (CompareKeys a.key b.key ≤ 0))

/-- Comparison used to sort children by their subjects. -/
def subjLE (a b : TSubject) : Prop := CompareKeys a b ≤ 0

instance : DecidableRel subjLE :=
  fun a b => inferInstanceAs (Decidable (CompareKeys a b ≤ 0))

/-- The `Class.properties()`: the own properties sorted by `CompareKeys`; a leaf
class additionally gets the injected `TypeProperty` discriminant in front. -/
def properties (reg : NReg) (c : NClass) : List NProp :=
  let sorted := List.insertionSort propLE c.props
  if isLeaf reg c then .typeProperty c.subject :: sorted else sorted

/-- The dynamic `baseName()`: `toClassName(subject) + 'Base'` for a regular
class, just the name for a `Builtin` (which overrides `baseName`). -/
def classBaseName (c : NClass) : String :=
  if c.builtin then toClassName c.subject else toClassName c.subject ++ "Base"

/-- The `parent.baseName()` resolved through the registry (dispatching on whether
the parent is a Builtin). -/
def baseNameOf (reg : NReg) (parent : TSubject) : String :=
  match nGet reg parent.toString with
  | some p => classBaseName p
  | none => toClassName parent ++ "Base"

/-- The `Class.baseNode`: the object literal of the (deprecation-filtered) emitted
properties combined with the parents' base shapes — intersection literal for
several parents, direct reuse for one, `never` when there is neither a parent
nor a property. -/
def baseNode (skipDeprecatedProperties : Bool) (reg : NReg) (c : NClass) : TypeNode :=
  let members :=
    ((properties reg c).filter
      (fun property => !property.deprecated || !skipDeprecatedProperties)).map
      NProp.toNode
  let parentTypes := c.parents.map (fun parent => TypeNode.reference (baseNameOf reg parent))
  let parentNode : Option TypeNode :=
    match parentTypes with
    | [] => none
    | [t] => some t
    | ts => some (.parenthesized (.intersectionOf ts))
  match parentNode, members.isEmpty with
  | some pn, false => .intersectionOf [pn, .typeLiteral members]
  | some pn, true => pn
  | none, false => .typeLiteral members
  | none, true => .neverKeyword

/-- The `Class.nonEnumType`: with children (sorted by `CompareKeys`), the union of
(i) the intersection of the literal holding only the discriminant field with
the by-name reference to the base shape and (ii) the children referenced by
name (a lone child directly, several as a parenthesized union); without
children, just the by-name reference to the base shape. -/
def nonEnumType (c : NClass) : TypeNode :=
  let sortedChildren := List.insertionSort subjLE c.children
  let children := sortedChildren.map (fun child => TypeNode.reference (toClassName child))
  let childrenNode : Option TypeNode :=
    match children with
    | [] => none
    | [single] => some single
    | cs => some (.parenthesized (.unionOf cs))
  match childrenNode with
  | some cn =>
      .unionOf [
        .intersectionOf [
          .typeLiteral [NProp.toNode (.typeProperty c.subject)],
          .reference (classBaseName c) ],
        cn ]
  | none => .reference (classBaseName c)

/-- The `Class.totalType`: the enum union in front of the parenthesized non-enum
shape when the class owns enum members, the non-enum shape alone otherwise. -/
def totalType (c : NClass) : TypeNode :=
  if c.enums.length > 0 then
    .unionOf [.reference (toClassName c.subject ++ "Enum"), .parenthesized (nonEnumType c)]
  else nonEnumType c

/-- The `Class.deprecated`: the class has at least one supersession target. -/
def NClass.deprecated (c : NClass) : Bool := c.supersededBy.length > 0

/-- The machine-readable deprecation notice: the replacement class names
joined with `or`. -/
def deprecationNotice (c : NClass) : String :=
  "@deprecated Use " ++ String.intercalate " or " (c.supersededBy.map toClassName)
    ++ " instead."

/-- The `comment` getter: the plain comment for a live class; for a deprecated
class, the comment (when present) followed by the deprecation notice on a new
line, or the notice alone. -/
def commentOf (c : NClass) : Option String :=
  if !c.deprecated then c.comment
  else
    match c.comment with
    | some m => some (m ++ "\n" ++ deprecationNotice c)
    | none => some (deprecationNotice c)

/-- A value (`ObjectPredicate`) offered to `Class.add`, discriminated the way
`GetComment` / `GetSubClassOf` / `IsSupersededBy` discriminate it. -/
inductive TValue where
  | commentValue (comment : String)
  | subClassOfValue (subClassOf : String)
  | supersededByValue (objectId : String)
  | otherValue
deriving DecidableEq, Repr

/-- The `Class.add` from class.ts, for the class with subject `self`: a comment is
recorded (overwriting, with only a log on duplicates); a subclass-of value
resolves the parent in the registry — pushing the parent onto `self`'s parents
and `self` onto the parent's children — and throws when the parent identifier
is unresolved; a superseded-by value resolves the target — appending it to
`self`'s supersession list — and throws when unresolved; anything else is left
unconsumed (`false`). -/
def classAdd (self : TSubject) (value : TValue) (classMap : NReg) :
    Except String (Bool × NReg) :=
  match value with
  | .commentValue c =>
      .ok (true, nUpdate classMap self.toString (fun cl => { cl with comment := some c }))
  | .subClassOfValue s =>
      match nGet classMap s with
      | some parentClass =>
          let withParent := nUpdate classMap self.toString
            (fun cl => { cl with parents := cl.parents ++ [parentClass.subject] })
          let withChild := nUpdate withParent s
            (fun p => { p with children := p.children ++ [self] })
          .ok (true, withChild)
      | none =>
          .error ("Couldn't find parent of " ++ self.toHumanString ++ ", " ++ s)
  | .supersededByValue o =>
      match nGet classMap o with
      | none =>
          .error ("Couldn't find class " ++ o ++ ", which supersedes class "
            ++ self.toHumanString)
      | some supersededBy =>
          .ok (true, nUpdate classMap self.toString
            (fun cl => { cl with supersededBy := cl.supersededBy ++ [supersededBy.subject] }))
  | .otherValue => .ok (false, classMap)

/-- The overall shape of `main`: every declaration is printed only after the
whole resolution pipeline has completed, so a generation run is the resolution
stage followed by emission and a fatal resolution error produces no output. -/
def runGeneration {σ : Type} (resolution : Except String σ)
    (emit : σ → List String) : Except String (List String) := do
  let state ← resolution
  pure (emit state)

/-! ## Spec-side ordering for the emission claim -/

/-- The emission ordering exactly as the spec words it: Builtins before all
regular classes; within each group by locale-aware human-readable name,
tie-broken by full canonical identifier string. -/
def specEmissionCompare (a b : NClass) : Int :=
  if a.builtin && !b.builtin then -1
  else if !a.builtin && b.builtin then 1
  else
    let byName := localeCompare a.subject.toHumanString b.subject.toHumanString
    if byName != 0 then byName
    else localeCompare a.subject.toString b.subject.toString

/-- The `Sort` from class.ts: Builtins first (compared by human-readable name
alone between themselves), regular classes after (compared by `CompareKeys`).
Named `SortComparator` here because `Sort` is a Lean keyword. -/
def SortComparator (a b : NClass) : Int :=
  if a.builtin then
    if b.builtin then localeCompare a.subject.toHumanString b.subject.toHumanString
    else -1
  else if b.builtin then 1
  else CompareKeys a.subject b.subject

/-! ## Auxiliary definitions used by the statements below -/

/-- Whether a property is the injected type discriminant. -/
def isTypeDiscriminant : NProp → Bool
  | .typeProperty _ => true
  | .resolved _ _ _ => false

/-- The "this class itself, not a subtype" branch of a total type: the
intersection of the literal holding only the discriminant field with the
by-name reference to the class's base shape (spec §4.6). -/
def ownDiscriminantBranch (c : NClass) : TypeNode :=
  .intersectionOf [
    .typeLiteral [NProp.toNode (.typeProperty c.subject)],
    .reference (classBaseName c) ]

/-- Erase the supersession list of a class (what the class would be had no
superseded-by fact been processed). -/
def scrubC (c : NClass) : NClass := { c with supersededBy := [] }

/-- Erase every supersession list in a registry. -/
def scrubReg (reg : NReg) : NReg := reg.map (fun kv => (kv.1, scrubC kv.2))

/-- Whether a list of identifiers is in non-decreasing scoped-name order. -/
def sortedByScopedName : List String → Bool
  | [] => true
  | [_] => true
  | a :: b :: rest =>
      !strLt (toScopedName b) (toScopedName a) && sortedByScopedName (b :: rest)

/-- A raw declaration of subject `subj` supplying one `domainIncludes`
reference, used in the merge scenario. -/
def domainDecl (subj x : String) : JsonLdGraphItem :=
  { id := subj, types := some (.one "rdf:Property"),
    domainIncludes := some (.one ⟨x⟩) }

/-! ## Concrete fixtures for witnesses and counterexamples -/

/-- Subject of the `Thing` class. -/
def sThing : TSubject := ⟨"Thing", "http://schema.org/Thing"⟩

/-- Subject of the `Person` class. -/
def sPerson : TSubject := ⟨"Person", "http://schema.org/Person"⟩

/-- Subject of the `Organization` class. -/
def sOrganization : TSubject := ⟨"Organization", "http://schema.org/Organization"⟩

/-- Subject of the `Text` builtin. -/
def sText : TSubject := ⟨"Text", "http://schema.org/Text"⟩

/-- Subject of the `Number` builtin. -/
def sNumber : TSubject := ⟨"Number", "http://schema.org/Number"⟩

/-- The `Thing` with children `Person` and `Organization`. -/
def clsThing : NClass := { subject := sThing, children := [sPerson, sOrganization] }

/-- The `Person`, a leaf subclass of `Thing`. -/
def clsPerson : NClass := { subject := sPerson, parents := [sThing] }

/-- The `Organization`, a leaf subclass of `Thing`. -/
def clsOrganization : NClass := { subject := sOrganization, parents := [sThing] }

/-- The `Text` builtin as a class value. -/
def clsText : NClass := { subject := sText, builtin := true }

/-- The `Number` builtin as a class value. -/
def clsNumber : NClass := { subject := sNumber, builtin := true }

/-- A small resolved registry: the `Text` builtin, `Thing`, `Person`,
`Organization`. -/
def regFix : NReg :=
  [ (sText.href, clsText),
    (sThing.href, clsThing),
    (sPerson.href, clsPerson),
    (sOrganization.href, clsOrganization) ]

/-- A registry with unresolved edges still to be added. -/
def regPlain : NReg :=
  [ (sThing.href, { subject := sThing }),
    (sPerson.href, { subject := sPerson }) ]

/-- A deprecated class `M`, superseded by `N` and `O`. -/
def clsM : NClass :=
  { subject := ⟨"M", "http://schema.org/M"⟩,
    comment := some "An old class.",
    props := [.resolved ⟨"name", "http://schema.org/name"⟩ false
      { name := "name", optional := true, type := .reference "Text" }],
    supersededBy := [⟨"N", "http://schema.org/N"⟩, ⟨"O", "http://schema.org/O"⟩] }

/-- An ontology class item named `Zebra`. -/
def itemZebra : JsonLdGraphItem :=
  { id := "http://schema.org/Zebra", types := some (.one "rdfs:Class") }

/-- An ontology class item named `Apple`. -/
def itemApple : JsonLdGraphItem :=
  { id := "http://schema.org/Apple", types := some (.one "rdfs:Class") }

/-- An ontology property item. -/
def itemName : JsonLdGraphItem :=
  { id := "http://schema.org/name", types := some (.one "rdf:Property") }

/-- The registry produced by resolving the Zebra/Apple/name input: the seeded
catalogue followed by the two class topics in input order. -/
def regC5 : OldReg :=
  wellKnownTypes.map (fun wk => (wk.item.id, wk)) ++
    [("http://schema.org/Zebra", { item := itemZebra }),
     ("http://schema.org/Apple", { item := itemApple })]

/-- The class emission order produced for the Zebra/Apple input: the six
seeded builtins in catalogue order, then the class topics in input order. -/
def emittedC5 : List String :=
  [ "http://schema.org/Text", "http://schema.org/Number", "http://schema.org/Time",
    "http://schema.org/Date", "http://schema.org/DateTime", "http://schema.org/Boolean",
    "http://schema.org/Zebra", "http://schema.org/Apple" ]

/-- A registry holding one ordinary class usable as an enum owner. -/
def enumReg : OldReg :=
  [ ("http://schema.org/SomeEnum",
     { item := { id := "http://schema.org/SomeEnum", types := some (.one "rdfs:Class") } }) ]

/-- A topic carrying both a `rdf:Property` tag and an enum-owner tag. -/
def propEnumItem : JsonLdGraphItem :=
  { id := "http://schema.org/Funny",
    types := some (.many ["rdf:Property", "http://schema.org/SomeEnum"]) }

/-- An enum member topic: a well-known Class tag, then the owner tag, then a
trailing candidate that should be ignored. -/
def enumItemFix : JsonLdGraphItem :=
  { id := "http://schema.org/E1",
    types := some (.many
      ["rdfs:Class", "http://schema.org/SomeEnum", "http://schema.org/Junk"]) }

/-! ## General lemmas -/

/-- The lexicographic comparison is irreflexive. -/
theorem charListLt_irrefl : ∀ l : List Char, charListLt l l = false
  | [] => rfl
  | a :: as => by simp [charListLt, lt_irrefl, charListLt_irrefl as]

/-- Lists unrelated in either direction by the lexicographic comparison are
equal. -/
theorem charListLt_asymm_eq : ∀ as bs : List Char,
    charListLt as bs = false → charListLt bs as = false → as = bs
  | [], [], _, _ => rfl
  | [], _ :: _, h, _ => by simp [charListLt] at h
  | _ :: _, [], _, h' => by simp [charListLt] at h'
  | a :: as, b :: bs, h, h' => by
      simp only [charListLt] at h h'
      by_cases hab : a < b
      · simp [hab] at h
      · by_cases hba : b < a
        · simp [hba] at h'
        · have hEq : a = b := le_antisymm (le_of_not_lt hba) (le_of_not_lt hab)
          subst hEq
          simp only [if_neg hab, if_neg hba] at h h'
          exact congrArg (a :: ·) (charListLt_asymm_eq as bs h h')

/-- The three-way comparison returns zero exactly on equal strings. -/
theorem localeCompare_eq_zero_iff (a b : String) : localeCompare a b = 0 ↔ a = b := by
  unfold localeCompare
  constructor
  · intro h
    by_cases h₁ : strLt a b = true
    · rw [if_pos h₁] at h
      exact absurd h (by decide)
    · rw [if_neg h₁] at h
      by_cases h₂ : strLt b a = true
      · rw [if_pos h₂] at h
        exact absurd h (by decide)
      · have hdata := charListLt_asymm_eq a.data b.data
          (Bool.not_eq_true _ ▸ (by simpa [strLt] using h₁))
          (Bool.not_eq_true _ ▸ (by simpa [strLt] using h₂))
        cases a; cases b
        exact congrArg String.mk hdata
  · intro h
    subst h
    have hself : strLt a a = false := charListLt_irrefl a.data
    rw [if_neg (by simp [hself]), if_neg (by simp [hself])]

/-- Bind on a successful `Except` computation. -/
theorem except_bind_ok {ε α β : Type} (a : α) (f : α → Except ε β) :
    (Except.ok a >>= f) = f a := rfl

/-- Bind on a failed `Except` computation. -/
theorem except_bind_error {ε α β : Type} (e : ε) (f : α → Except ε β) :
    ((Except.error e : Except ε α) >>= f) = Except.error e := rfl

/-! ## C9: value multiplicity of emitted properties -/

/-- C9: a property whose key does not start with the reserved marker `@` emits
an optional signature whose type is the union of the scalar range type with an
array of it; a property whose key starts with `@` emits a mandatory signature
of the scalar type alone. -/
theorem property_value_multiplicity (p : OldProperty) :
    (¬ strStartsWith p.key "@" →
      p.toNode = { name := p.key, optional := true,
                   type := .unionOf [p.scalarTypeNode, .arrayType p.scalarTypeNode] }) ∧
    (strStartsWith p.key "@" →
      p.toNode = { name := p.key, optional := false, type := p.scalarTypeNode }) := by
  constructor <;> intro h <;>
    simp [OldProperty.toNode, OldProperty.typeNode, OldProperty.required, h]

/-- Witness for C9 at the ontology property `name` (optional, union with
array) and at the reserved discriminant key `@type` (mandatory, scalar). -/
theorem property_value_multiplicity_witness :
    (OldProperty.toNode
        { key := "name", type := .propertyRange none ["http://schema.org/Text"] } =
      { name := "name", optional := true,
        type := .unionOf [.reference "Text", .arrayType (.reference "Text")] }) ∧
    (OldProperty.toNode { key := "@type", type := .stringLiteral "Thing" } =
      { name := "@type", optional := false, type := .stringLiteralType "Thing" }) := by
  constructor
  · have h := (property_value_multiplicity
      { key := "name", type := .propertyRange none ["http://schema.org/Text"] }).1
      (by decide)
    exact h.trans rfl
  · have h := (property_value_multiplicity
      { key := "@type", type := .stringLiteral "Thing" }).2 (by decide)
    exact h.trans rfl

/-! ## C10: the uninhabited base-shape sentinel -/

/-- C10: the synthesized base shape is the `never` keyword exactly when the
class has no parents and its deprecation-filtered emitted property list is
empty; with at least one parent or one emitted property it is never the
sentinel. -/
theorem baseNode_never_iff (skip : Bool) (reg : NReg) (c : NClass) :
    baseNode skip reg c = .neverKeyword ↔
      (c.parents = [] ∧
        (properties reg c).filter (fun p => !p.deprecated || !skip) = []) := by
  cases hpar : c.parents with
  | nil =>
      cases hfil : (properties reg c).filter (fun p => !p.deprecated || !skip) with
      | nil => simp [baseNode, hpar, hfil]
      | cons q qs => simp [baseNode, hpar, hfil]
  | cons p ps =>
      cases ps with
      | nil =>
          cases hfil : (properties reg c).filter (fun p => !p.deprecated || !skip) with
          | nil => simp [baseNode, hpar, hfil]
          | cons q qs => simp [baseNode, hpar, hfil]
      | cons p₂ ps₂ =>
          cases hfil : (properties reg c).filter (fun p => !p.deprecated || !skip) with
          | nil => simp [baseNode, hpar, hfil]
          | cons q qs => simp [baseNode, hpar, hfil]

/-! ## Frame lemmas for supersession -/

/-- Scrubbing a class leaves every generational input other than the
supersession list untouched. -/
theorem aliasesBuiltin_scrubC (reg : NReg) (fuel : Nat) (c : NClass) :
    aliasesBuiltin reg fuel (scrubC c) = aliasesBuiltin reg fuel c := by
  cases fuel <;> rfl

/-- Looking up in a scrubbed registry returns the scrubbed class. -/
theorem nGet_scrubReg (reg : NReg) (k : String) :
    nGet (scrubReg reg) k = (nGet reg k).map scrubC := by
  induction reg with
  | nil => rfl
  | cons kv rest ih =>
      obtain ⟨k₀, v₀⟩ := kv
      by_cases h : (k₀ == k) = true
      · simp [scrubReg, nGet, h]
      · simpa [scrubReg, nGet, h] using ih

/-- Builtin aliasing is independent of every supersession list in the
registry. -/
theorem aliasesBuiltin_scrubReg (reg : NReg) :
    ∀ (fuel : Nat) (c : NClass),
      aliasesBuiltin (scrubReg reg) fuel c = aliasesBuiltin reg fuel c := by
  intro fuel
  induction fuel with
  | zero => intro c; rfl
  | succ n ih =>
      intro c
      simp only [aliasesBuiltin]
      refine congrArg c.parents.any (funext fun parent => ?_)
      rw [nGet_scrubReg]
      cases h : nGet reg parent.toString with
      | none => rfl
      | some q =>
          show ((scrubC q).builtin || aliasesBuiltin (scrubReg reg) n (scrubC q))
            = (q.builtin || aliasesBuiltin reg n q)
          rw [ih (scrubC q), aliasesBuiltin_scrubC]
          rfl

/-- The registry sizes agree, so `isLeaf` is scrub-invariant. -/
theorem isLeaf_scrub (reg : NReg) (c : NClass) :
    isLeaf (scrubReg reg) (scrubC c) = isLeaf reg c := by
  unfold isLeaf
  rw [show (scrubReg reg).length = reg.length from List.length_map ..]
  rw [aliasesBuiltin_scrubReg, aliasesBuiltin_scrubC]
  rfl

/-- The parent's emitted base name is scrub-invariant. -/
theorem baseNameOf_scrubReg (reg : NReg) (parent : TSubject) :
    baseNameOf (scrubReg reg) parent = baseNameOf reg parent := by
  unfold baseNameOf
  rw [nGet_scrubReg]
  cases nGet reg parent.toString <;> rfl

/-- The sorted property list (with the injected discriminant) is
scrub-invariant. -/
theorem properties_scrub (reg : NReg) (c : NClass) :
    properties (scrubReg reg) (scrubC c) = properties reg c := by
  unfold properties
  rw [isLeaf_scrub]
  rfl

/-- Updating only the supersession list of an entry is invisible after
scrubbing. -/
theorem scrubReg_nUpdate_supersede (reg : NReg) (k : String)
    (f : NClass → List TSubject) :
    scrubReg (nUpdate reg k (fun cl => { cl with supersededBy := f cl })) =
      scrubReg reg := by
  induction reg with
  | nil => rfl
  | cons kv rest ih =>
      obtain ⟨k₀, v₀⟩ := kv
      by_cases h : (k₀ == k) = true <;> simp [nUpdate, scrubReg, h] <;>
        first
          | rfl
          | simpa [scrubReg] using ih

/-! ## C8: deprecation is annotation only -/

/-- C8: a class with supersession targets is marked deprecated and its emitted
comment gains a deprecation notice naming the replacements joined with "or";
and supersession changes nothing else — the property list, base shape, total
shape, and parent/child edges are the same as without the supersession facts,
and consuming a superseded-by value changes only the supersession list. -/
theorem supersession_annotates_only (reg : NReg) (c : NClass) (self : TSubject)
    (oid : String) (reg' : NReg) :
    (c.supersededBy ≠ [] → c.deprecated = true) ∧
    (c.supersededBy ≠ [] → c.comment = none →
      commentOf c = some (deprecationNotice c)) ∧
    (∀ m, c.supersededBy ≠ [] → c.comment = some m →
      commentOf c = some (m ++ "\n" ++ deprecationNotice c)) ∧
    deprecationNotice c =
      "@deprecated Use " ++ String.intercalate " or " (c.supersededBy.map toClassName)
        ++ " instead." ∧
    properties (scrubReg reg) (scrubC c) = properties reg c ∧
    (∀ skip, baseNode skip (scrubReg reg) (scrubC c) = baseNode skip reg c) ∧
    nonEnumType (scrubC c) = nonEnumType c ∧
    (scrubC c).parents = c.parents ∧
    (scrubC c).children = c.children ∧
    (scrubC c).props = c.props ∧
    (classAdd self (.supersededByValue oid) reg = .ok (true, reg') →
      scrubReg reg' = scrubReg reg) := by
  have hdep : c.supersededBy ≠ [] → c.deprecated = true := by
    intro h
    simp [NClass.deprecated, List.length_pos, h]
  refine ⟨hdep, ?_, ?_, rfl, properties_scrub reg c, ?_, rfl, rfl, rfl, rfl, ?_⟩
  · intro h hc
    simp [commentOf, hdep h, hc]
  · intro m h hc
    simp [commentOf, hdep h, hc]
  · intro skip
    unfold baseNode
    rw [properties_scrub]
    have hf : (fun parent => TypeNode.reference (baseNameOf (scrubReg reg) parent))
        = (fun parent => TypeNode.reference (baseNameOf reg parent)) :=
      funext fun parent => congrArg TypeNode.reference (baseNameOf_scrubReg reg parent)
    rw [hf]
    rfl
  · intro h
    simp only [classAdd] at h
    cases hn : nGet reg oid with
    | none => rw [hn] at h; simp at h
    | some sup =>
        rw [hn] at h
        simp only [Except.ok.injEq, Prod.mk.injEq, true_and] at h
        rw [← h]
        exact scrubReg_nUpdate_supersede reg self.toString _

/-- Witness for C8: the deprecated class `M` (superseded by `N` and `O`)
carries the notice naming both replacements, and a concrete superseded-by
resolution leaves the scrubbed registry unchanged. -/
theorem supersession_annotates_only_witness :
    clsM.deprecated = true ∧
    commentOf clsM = some "An old class.\n@deprecated Use N or O instead." ∧
    scrubReg (nUpdate regPlain sPerson.toString
        (fun cl => { cl with supersededBy := cl.supersededBy ++ [sThing] })) =
      scrubReg regPlain := by
  have h := supersession_annotates_only regPlain clsM sPerson sThing.href
    (nUpdate regPlain sPerson.toString
      (fun cl => { cl with supersededBy := cl.supersededBy ++ [sThing] }))
  refine ⟨h.1 (by simp [clsM]), ?_, ?_⟩
  · have := h.2.2.1 "An old class." (by simp [clsM]) rfl
    rw [this]
    rfl
  · exact h.2.2.2.2.2.2.2.2.2.2 rfl

/-! ## C3: class-graph edge resolution and fatal unresolved references -/

/-- C3: an unresolved parent or supersession reference raises the fatal error
(and a fatal resolution error aborts the run with no output at all); a
resolved reference records the edge — the parent is pushed onto this class's
parents and this class onto the parent's children, or the target is appended
to the supersession list — and the value is consumed (`true`). -/
theorem edge_resolution_fatal (self : TSubject) (reg : NReg) (pid oid : String) :
    (nGet reg pid = none →
      classAdd self (.subClassOfValue pid) reg =
        .error ("Couldn't find parent of " ++ self.toHumanString ++ ", " ++ pid)) ∧
    (∀ pc, nGet reg pid = some pc →
      classAdd self (.subClassOfValue pid) reg =
        .ok (true,
          nUpdate (nUpdate reg self.toString
              (fun cl => { cl with parents := cl.parents ++ [pc.subject] })) pid
            (fun p => { p with children := p.children ++ [self] }))) ∧
    (nGet reg oid = none →
      classAdd self (.supersededByValue oid) reg =
        .error ("Couldn't find class " ++ oid ++ ", which supersedes class "
          ++ self.toHumanString)) ∧
    (∀ sc, nGet reg oid = some sc →
      classAdd self (.supersededByValue oid) reg =
        .ok (true, nUpdate reg self.toString
          (fun cl => { cl with supersededBy := cl.supersededBy ++ [sc.subject] }))) ∧
    (∀ (e : String) (emit : NReg → List String),
      runGeneration (.error e) emit = .error e) := by
  refine ⟨?_, ?_, ?_, ?_, ?_⟩
  · intro h; simp [classAdd, h]
  · intro pc h; simp [classAdd, h]
  · intro h; simp [classAdd, h]
  · intro sc h; simp [classAdd, h]
  · intro e emit; rfl

/-- Witness for C3: in the registry containing only `Thing` and `Person`, a
subclass edge and a supersession edge with a resolvable target succeed and
record the edge, unresolvable targets raise the fatal error, and an error
result aborts generation. -/
theorem edge_resolution_fatal_witness :
    classAdd sPerson (.subClassOfValue "http://schema.org/Thing") regPlain =
      .ok (true,
        nUpdate (nUpdate regPlain sPerson.toString
            (fun cl => { cl with parents := cl.parents ++ [sThing] })) "http://schema.org/Thing"
          (fun p => { p with children := p.children ++ [sPerson] })) ∧
    classAdd sPerson (.subClassOfValue "http://schema.org/Missing") regPlain =
      .error "Couldn't find parent of Person, http://schema.org/Missing" ∧
    classAdd sPerson (.supersededByValue "http://schema.org/Missing") regPlain =
      .error "Couldn't find class http://schema.org/Missing, which supersedes class Person" ∧
    classAdd sPerson (.supersededByValue "http://schema.org/Thing") regPlain =
      .ok (true, nUpdate regPlain sPerson.toString
        (fun cl => { cl with supersededBy := cl.supersededBy ++ [sThing] })) ∧
    runGeneration (Except.error "unresolved reference") (fun (_ : NReg) => []) =
      .error "unresolved reference" := by
  have h := edge_resolution_fatal sPerson regPlain "http://schema.org/Thing"
    "http://schema.org/Missing"
  have h₂ := edge_resolution_fatal sPerson regPlain "http://schema.org/Missing"
    "http://schema.org/Thing"
  refine ⟨?_, ?_, ?_, ?_, h.2.2.2.2 "unresolved reference" (fun _ => [])⟩
  · exact h.2.1 { subject := sThing } rfl
  · exact h₂.1 rfl
  · exact h.2.2.1 rfl
  · exact h₂.2.2.2.1 { subject := sThing } rfl

/-! ## C2: leaf discriminant injection -/

/-- C2: a class with no children and no (transitive) Builtin ancestor gets
exactly one injected discriminant, placed in front of its sorted own
properties and emitting the mandatory `@type` field whose literal value is
the class's own name; any class with a child or with a Builtin ancestor gets
none.  The hypothesis records the pipeline invariant that the discriminant is
only ever injected by `properties()` — the resolved properties accumulated by
`addProp` are never discriminants. -/
theorem leaf_discriminant_injection (reg : NReg) (c : NClass)
    (hprops : ∀ p ∈ c.props, isTypeDiscriminant p = false) :
    (isLeaf reg c = true →
      properties reg c = .typeProperty c.subject :: List.insertionSort propLE c.props ∧
      (properties reg c).countP isTypeDiscriminant = 1 ∧
      NProp.toNode (.typeProperty c.subject) =
        { name := "@type", optional := false,
          type := .stringLiteralType (toClassName c.subject) }) ∧
    (isLeaf reg c = false →
      (properties reg c).countP isTypeDiscriminant = 0) ∧
    isLeaf reg c = (c.children.isEmpty && !aliasesBuiltin reg reg.length c) := by
  have hcount : (List.insertionSort propLE c.props).countP isTypeDiscriminant = 0 := by
    rw [(List.perm_insertionSort propLE c.props).countP_eq]
    exact List.countP_eq_zero.mpr (fun p hp => by simp [hprops p hp])
  refine ⟨?_, ?_, rfl⟩
  · intro hleaf
    refine ⟨by simp [properties, hleaf], ?_, rfl⟩
    simp [properties, hleaf, List.countP_cons, hcount, isTypeDiscriminant]
  · intro hleaf
    simp [properties, hleaf, hcount]

/-- Witness for C2: in the concrete registry, the childless `Person` gets
exactly the one discriminant (with literal value `"Person"`), and `Thing`
(which has children) gets none. -/
theorem leaf_discriminant_injection_witness :
    properties regFix clsPerson = [.typeProperty sPerson] ∧
    (properties regFix clsPerson).countP isTypeDiscriminant = 1 ∧
    NProp.toNode (.typeProperty sPerson) =
      { name := "@type", optional := false, type := .stringLiteralType "Person" } ∧
    (properties regFix clsThing).countP isTypeDiscriminant = 0 := by
  have h := leaf_discriminant_injection regFix clsPerson
    (fun p hp => absurd hp (by simp [clsPerson]))
  have h₂ := leaf_discriminant_injection regFix clsThing
    (fun p hp => absurd hp (by simp [clsThing]))
  have hp := h.1 (by decide)
  exact ⟨hp.1, hp.2.1, hp.2.2, h₂.2.1 (by decide)⟩

/-! ## C1: shape of the non-enum total type -/

/-- C1: with at least one child, the non-enum total type is the union of the
"this class itself, not a subtype" branch — the intersection of the object
literal holding only the discriminant field with the by-name reference to the
base shape — and the children's total types referenced by name in sorted order
(one child directly, several as a parenthesized union); with no children it is
exactly the by-name reference to the base shape. -/
theorem nonEnumType_shape (c : NClass) :
    (c.children = [] → nonEnumType c = .reference (classBaseName c)) ∧
    (∀ ch, List.insertionSort subjLE c.children = [ch] →
      nonEnumType c = .unionOf [ownDiscriminantBranch c,
        .reference (toClassName ch)]) ∧
    (∀ ch₁ ch₂ rest, List.insertionSort subjLE c.children = ch₁ :: ch₂ :: rest →
      nonEnumType c = .unionOf [ownDiscriminantBranch c,
        .parenthesized (.unionOf ((ch₁ :: ch₂ :: rest).map
          (fun child => TypeNode.reference (toClassName child))))]) := by
  refine ⟨?_, ?_, ?_⟩
  · intro h
    simp [nonEnumType, h, List.insertionSort]
  · intro ch hsort
    simp [nonEnumType, hsort, ownDiscriminantBranch]
  · intro ch₁ ch₂ rest hsort
    simp [nonEnumType, hsort, ownDiscriminantBranch]

/-- Witness for C1: `Thing` (children `Person`, `Organization`) produces the
union of its own-discriminant branch with the parenthesized union of its
children sorted by name; the childless `Person` produces the bare reference to
its base shape. -/
theorem nonEnumType_shape_witness :
    nonEnumType clsThing = .unionOf [ownDiscriminantBranch clsThing,
      .parenthesized (.unionOf [.reference "Organization", .reference "Person"])] ∧
    nonEnumType clsPerson = .reference "PersonBase" := by
  constructor
  · have h := (nonEnumType_shape clsThing).2.2 sOrganization sPerson [] (by decide)
    exact h.trans rfl
  · have h := (nonEnumType_shape clsPerson).1 rfl
    exact h.trans rfl

/-! ## C6: the emission ordering -/

/-- C6: the emission comparator places every Builtin strictly before every
regular class and agrees with the spec's ordering — within each group by
locale-aware human-readable name, tie-broken by full canonical identifier —
and that ordering is total (it returns 0 only on identical group and subject).
The hypothesis records the run invariant that Builtins come only from the
fixed seeded catalogue, whose human-readable names are pairwise distinct, so
two distinct Builtins never tie on name (the comparator's Builtin branch has
no identifier tie-break of its own). -/
theorem emission_order_total (a b : NClass)
    (hnames : a.builtin = true → b.builtin = true →
      a.subject.name ≠ b.subject.name ∨ a.subject = b.subject) :
    (a.builtin = true → b.builtin = false → SortComparator a b = -1) ∧
    (a.builtin = false → b.builtin = true → SortComparator a b = 1) ∧
    SortComparator a b = specEmissionCompare a b ∧
    (specEmissionCompare a b = 0 → a.builtin = b.builtin ∧ a.subject = b.subject) := by
  have hspec0 : specEmissionCompare a b = 0 →
      a.builtin = b.builtin ∧ a.subject = b.subject := by
    intro h0
    unfold specEmissionCompare at h0
    by_cases c1 : (a.builtin && !b.builtin) = true
    · rw [if_pos c1] at h0
      exact absurd h0 (by decide)
    · rw [if_neg c1] at h0
      by_cases c2 : (!a.builtin && b.builtin) = true
      · rw [if_pos c2] at h0
        exact absurd h0 (by decide)
      · rw [if_neg c2] at h0
        by_cases hb0 : (localeCompare a.subject.toHumanString b.subject.toHumanString != 0) = true
        · rw [if_pos hb0] at h0
          exact absurd h0 (by simpa [bne] using hb0)
        · rw [if_neg hb0] at h0
          have hname : a.subject.name = b.subject.name :=
            (localeCompare_eq_zero_iff _ _).1 (by simpa [bne] using hb0)
          have hhref : a.subject.href = b.subject.href :=
            (localeCompare_eq_zero_iff _ _).1 h0
          refine ⟨?_, congrArg₂ TSubject.mk hname hhref⟩
          cases hA : a.builtin <;> cases hB : b.builtin <;> simp_all
  refine ⟨?_, ?_, ?_, hspec0⟩
  · intro ha hb
    simp [SortComparator, ha, hb]
  · intro ha hb
    simp [SortComparator, ha, hb]
  · cases ha : a.builtin with
    | true =>
        cases hb : b.builtin with
        | true =>
            rcases hnames ha hb with hne | heq
            · have hby : localeCompare a.subject.toHumanString b.subject.toHumanString ≠ 0 :=
                fun h0 => hne ((localeCompare_eq_zero_iff _ _).1 h0)
              simp [SortComparator, specEmissionCompare, ha, hb, hby]
            · have h0 : localeCompare a.subject.toHumanString b.subject.toHumanString = 0 := by
                rw [heq]
                exact (localeCompare_eq_zero_iff _ _).2 rfl
              have h1 : localeCompare (TSubject.toString a.subject)
                  (TSubject.toString b.subject) = 0 := by
                rw [heq]
                exact (localeCompare_eq_zero_iff _ _).2 rfl
              simp [SortComparator, specEmissionCompare, ha, hb, h0, h1]
        | false => simp [SortComparator, specEmissionCompare, ha, hb]
    | false =>
        cases hb : b.builtin with
        | true => simp [SortComparator, specEmissionCompare, ha, hb]
        | false => simp [SortComparator, specEmissionCompare, ha, hb, CompareKeys]

/-- Witness for C6 on concrete classes: the `Text` builtin sorts strictly
before the regular `Person`, and the comparator agrees with the spec ordering
both between two distinct-named builtins and between two regular classes. -/
theorem emission_order_total_witness :
    SortComparator clsText clsPerson = -1 ∧
    SortComparator clsPerson clsText = 1 ∧
    SortComparator clsText clsNumber = specEmissionCompare clsText clsNumber ∧
    SortComparator clsThing clsPerson = specEmissionCompare clsThing clsPerson := by
  have h₁ := emission_order_total clsText clsPerson (fun _ hb => absurd hb (by decide))
  have h₂ := emission_order_total clsPerson clsText (fun ha _ => absurd ha (by decide))
  have h₃ := emission_order_total clsText clsNumber (fun _ _ => Or.inl (by decide))
  have h₄ := emission_order_total clsThing clsPerson (fun ha _ => absurd ha (by decide))
  exact ⟨h₁.1 (by decide) (by decide), h₂.2.1 (by decide) (by decide),
    h₃.2.2.1, h₄.2.2.1⟩

/-! ## C7: set-union merge of duplicate raw declarations -/

/-- Membership in the first-occurrence deduplication. -/
theorem mem_dedupFirstAux : ∀ (l seen : List String) (a : String),
    a ∈ dedupFirstAux seen l ↔ a ∈ l ∧ a ∉ seen := by
  intro l
  induction l with
  | nil =>
      intro seen a
      simp [dedupFirstAux]
  | cons x xs ih =>
      intro seen a
      by_cases hx : x ∈ seen
      · rw [show dedupFirstAux seen (x :: xs) = dedupFirstAux seen xs by
            simp [dedupFirstAux, hx]]
        rw [ih seen a]
        constructor
        · rintro ⟨ha, hs⟩
          exact ⟨List.mem_cons_of_mem _ ha, hs⟩
        · rintro ⟨ha, hs⟩
          rcases List.mem_cons.mp ha with rfl | ha'
          · exact absurd hx hs
          · exact ⟨ha', hs⟩
      · rw [show dedupFirstAux seen (x :: xs) = x :: dedupFirstAux (x :: seen) xs by
            simp [dedupFirstAux, hx]]
        rw [List.mem_cons, ih (x :: seen) a]
        constructor
        · rintro (rfl | ⟨ha, hs⟩)
          · exact ⟨List.mem_cons_self _ _, hx⟩
          · exact ⟨List.mem_cons_of_mem _ ha, fun h => hs (List.mem_cons_of_mem _ h)⟩
        · rintro ⟨ha, hs⟩
          rcases List.mem_cons.mp ha with rfl | ha'
          · exact Or.inl rfl
          · by_cases hax : a = x
            · exact Or.inl hax
            · exact Or.inr ⟨ha', by simp [List.mem_cons, hax, hs]⟩

/-- Deduplication preserves the underlying set. -/
theorem toFinset_dedupFirst (l : List String) :
    (dedupFirst l).toFinset = l.toFinset := by
  ext a
  simp [dedupFirst, mem_dedupFirstAux]

/-- The identifiers of a combined reference list are the deduplicated
identifiers of the two sides. -/
theorem map_id_combineRef (first second : Option (LdItem LdRef)) :
    (combineRef first second).map LdRef.id =
      dedupFirst ((ToArray first ++ ToArray second).map LdRef.id) := by
  unfold combineRef
  rw [List.map_map]
  rw [show LdRef.id ∘ LdRef.mk = id from funext fun z => rfl, List.map_id]

/-- C7: merging two declarations of one subject unions their domain-includes
(and type-tag) sets, deduplicated by identifier, and the resulting set does
not depend on the processing order; in particular grouping the two
declarations `domainIncludes: X` and `domainIncludes: Y` in either order
yields the merged topic with domain set `{X, Y}`. -/
theorem merge_set_union (subj x y : String) (first second : Option (LdItem LdRef))
    (os₁ os₂ : Option (LdItem String))
    (hsubj : subj ≠ "http://meta.schema.org/") :
    ((combineRef first second).map LdRef.id).toFinset =
      ((ToArray first).map LdRef.id).toFinset ∪ ((ToArray second).map LdRef.id).toFinset ∧
    ((combineRef first second).map LdRef.id).toFinset =
      ((combineRef second first).map LdRef.id).toFinset ∧
    (combineString os₁ os₂).toFinset = (ToArray os₁).toFinset ∪ (ToArray os₂).toFinset ∧
    (combineString os₁ os₂).toFinset = (combineString os₂ os₁).toFinset ∧
    (mapGet (group [.item (domainDecl subj x), .item (domainDecl subj y)] []) subj).map
        (fun it => ((ToArray it.domainIncludes).map LdRef.id).toFinset) = some {x, y} ∧
    (mapGet (group [.item (domainDecl subj y), .item (domainDecl subj x)] []) subj).map
        (fun it => ((ToArray it.domainIncludes).map LdRef.id).toFinset) = some {x, y} := by
  have href : ∀ (f s : Option (LdItem LdRef)),
      ((combineRef f s).map LdRef.id).toFinset =
        ((ToArray f).map LdRef.id).toFinset ∪ ((ToArray s).map LdRef.id).toFinset := by
    intro f s
    rw [map_id_combineRef, toFinset_dedupFirst, List.map_append, List.toFinset_append]
  have hstr : ∀ (f s : Option (LdItem String)),
      (combineString f s).toFinset = (ToArray f).toFinset ∪ (ToArray s).toFinset := by
    intro f s
    rw [combineString, toFinset_dedupFirst, List.toFinset_append]
  have hscen : ∀ u v : String,
      (mapGet (group [.item (domainDecl subj u), .item (domainDecl subj v)] []) subj).map
        (fun it => ((ToArray it.domainIncludes).map LdRef.id).toFinset) = some {u, v} := by
    intro u v
    simp [group, groupItemStep, IsSourceOnly, IsSoftwareVersionOnly, IsCloseMatch,
      IsTestComment, mapGet, mapSet, mergeItems, domainDecl, hsubj, href, ToArray]
    ext a
    simp [or_comm]
  refine ⟨href first second, ?_, hstr os₁ os₂, ?_, hscen x y, ?_⟩
  · rw [href, href, Finset.union_comm]
  · rw [hstr, hstr, Finset.union_comm]
  · rw [hscen y x]
    rw [show ({y, x} : Finset String) = {x, y} from Finset.pair_comm y x]

/-- Witness for C7 at concrete subjects: the two declarations merge to the
domain set `{X, Y}` in both processing orders. -/
theorem merge_set_union_witness :
    (mapGet (group [.item (domainDecl "http://schema.org/p" "http://schema.org/X"),
        .item (domainDecl "http://schema.org/p" "http://schema.org/Y")] [])
        "http://schema.org/p").map
      (fun it => ((ToArray it.domainIncludes).map LdRef.id).toFinset) =
        some {"http://schema.org/X", "http://schema.org/Y"} ∧
    (mapGet (group [.item (domainDecl "http://schema.org/p" "http://schema.org/Y"),
        .item (domainDecl "http://schema.org/p" "http://schema.org/X")] [])
        "http://schema.org/p").map
      (fun it => ((ToArray it.domainIncludes).map LdRef.id).toFinset) =
        some {"http://schema.org/X", "http://schema.org/Y"} := by
  have h := merge_set_union "http://schema.org/p" "http://schema.org/X"
    "http://schema.org/Y" none none none none (by decide)
  exact ⟨h.2.2.2.2.1, h.2.2.2.2.2⟩

/-! ## C4: enum owner resolution -/

/-- Counterexample for C4: the topic `Funny` is treated as an enumeration
member (`HasEnumType` holds because `http://schema.org/SomeEnum` is not
well-known), and `SomeEnum` resolves in the registry, so the claim predicts
that `SomeEnum` — the first tag that is none of Class/Property/DataType —
becomes the owner; but the owner scan of `EnumValue.init` skips only Class and
DataType tags, takes the `rdf:Property` tag as the owner candidate, fails to
resolve it, and raises the fatal error instead. -/
theorem enum_owner_scan_counterexample :
    HasEnumType ["rdf:Property", "http://schema.org/SomeEnum"] = true ∧
    (oldGet enumReg "http://schema.org/SomeEnum").isSome = true ∧
    enumInit "en" propEnumItem enumReg =
      .error "Couldn't find rdf:Property in classes." := by
  refine ⟨by decide, by decide, ?_⟩
  rfl

/-- C4 (amended): scanning an enum topic's type tags in order, the scan skips
only Class and DataType tags (a Property tag is not skipped); the first
non-skipped tag becomes the sole owner candidate: if it resolves, exactly one
enum member is attached to its class, scanning stops and all later tags are
ignored (the result does not mention `rest`); if it does not resolve, the run
fails with the fatal referential-integrity error. -/
theorem enum_owner_first_unskipped (lang : String) (item : JsonLdGraphItem)
    (map : OldReg) (skipped : List String) (t : String) (rest : List String)
    (hskip : ∀ s ∈ skipped, (IsClassType s || IsDataType s) = true)
    (ht : (IsClassType t || IsDataType t) = false) :
    (oldGet map t = none →
      enumAttach item.id (skipped ++ t :: rest) map =
        .error ("Couldn't find " ++ t ++ " in classes.")) ∧
    (∀ cl, oldGet map t = some cl →
      enumAttach item.id (skipped ++ t :: rest) map =
        .ok (some (oldUpdate map t (fun c => { c with enums := c.enums ++ [item.id] })))) ∧
    (GetTypes item = .ok (skipped ++ t :: rest) → oldGet map t = none →
      enumInit lang item map = .error ("Couldn't find " ++ t ++ " in classes.")) ∧
    (∀ cl, GetTypes item = .ok (skipped ++ t :: rest) → oldGet map t = some cl →
      enumInit lang item map =
        .ok (oldUpdate map t (fun c => { c with enums := c.enums ++ [item.id] }), true)) := by
  have hA : ∀ (sk : List String), (∀ s ∈ sk, (IsClassType s || IsDataType s) = true) →
      enumAttach item.id (sk ++ t :: rest) map = enumAttach item.id (t :: rest) map := by
    intro sk
    induction sk with
    | nil => intro _; rfl
    | cons s ss ih =>
        intro hs
        have h₁ := hs s (List.mem_cons_self _ _)
        rw [List.cons_append,
          show enumAttach item.id (s :: (ss ++ t :: rest)) map
              = enumAttach item.id (ss ++ t :: rest) map by simp [enumAttach, h₁]]
        exact ih (fun s' hs' => hs s' (List.mem_cons_of_mem _ hs'))
  have hnone : oldGet map t = none →
      enumAttach item.id (skipped ++ t :: rest) map =
        .error ("Couldn't find " ++ t ++ " in classes.") := by
    intro h
    rw [hA skipped hskip]
    simp [enumAttach, ht, h]
  have hsome : ∀ cl, oldGet map t = some cl →
      enumAttach item.id (skipped ++ t :: rest) map =
        .ok (some (oldUpdate map t (fun c => { c with enums := c.enums ++ [item.id] }))) := by
    intro cl h
    rw [hA skipped hskip]
    simp [enumAttach, ht, h]
  refine ⟨hnone, hsome, ?_, ?_⟩
  · intro hGT h
    simp only [enumInit, hGT, except_bind_ok, hnone h, except_bind_error]
  · intro cl hGT h
    simp only [enumInit, hGT, except_bind_ok, hsome cl h]
    rfl

/-- Witness for the amended C4: the topic `E1` (tags Class, `SomeEnum`,
`Junk`) attaches exactly one member to `SomeEnum` and the unresolvable
trailing `Junk` tag is never consulted; an unresolvable first candidate is
fatal. -/
theorem enum_owner_first_unskipped_witness :
    enumInit "en" enumItemFix enumReg =
      .ok (oldUpdate enumReg "http://schema.org/SomeEnum"
        (fun c => { c with enums := c.enums ++ ["http://schema.org/E1"] }), true) ∧
    enumAttach "http://schema.org/E1"
        (["rdfs:Class"] ++ "http://schema.org/Missing" :: ["http://schema.org/SomeEnum"])
        enumReg =
      .error "Couldn't find http://schema.org/Missing in classes." := by
  constructor
  · have h := enum_owner_first_unskipped "en" enumItemFix enumReg ["rdfs:Class"]
      "http://schema.org/SomeEnum" ["http://schema.org/Junk"]
      (by intro s hs; fin_cases hs; decide) (by decide)
    exact h.2.2.2 _ rfl rfl
  · have h := enum_owner_first_unskipped "en" enumItemFix enumReg ["rdfs:Class"]
      "http://schema.org/Missing" ["http://schema.org/SomeEnum"]
      (by intro s hs; fin_cases hs; decide) (by decide)
    exact h.1 rfl

/-! ## C5: determinism and the emission order of the class collection -/

/-- In-place updates do not change the key sequence. -/
theorem oldUpdate_keys (m : OldReg) (k : String) (f : OldClass → OldClass) :
    oldKeys (oldUpdate m k f) = oldKeys m := by
  induction m with
  | nil => rfl
  | cons kv rest ih =>
      obtain ⟨k₀, v₀⟩ := kv
      by_cases h : (k₀ == k) = true
      · simp [oldUpdate, oldKeys, h]
      · simp only [oldUpdate, if_neg h, oldKeys, List.map_cons]
        simpa [oldKeys] using ih

/-- Inserting a fresh key appends it to the key sequence. -/
theorem oldSet_keys_absent (m : OldReg) (k : String) (v : OldClass)
    (h : k ∉ oldKeys m) : oldKeys (oldSet m k v) = oldKeys m ++ [k] := by
  induction m with
  | nil => rfl
  | cons kv rest ih =>
      obtain ⟨k₀, v₀⟩ := kv
      have hk : ¬ (k = k₀ ∨ k ∈ oldKeys rest) := by simpa [oldKeys] using h
      have hne : (k₀ == k) = false := by
        simp only [beq_eq_false_iff_ne]
        exact fun hkk => hk (Or.inl hkk.symm)
      simp only [oldSet, hne, Bool.false_eq_true, if_false, oldKeys, List.map_cons,
        List.cons_append, List.cons.injEq, true_and]
      simpa [oldKeys] using ih (fun hmem => hk (Or.inr hmem))

/-- A fold whose every successful step preserves the key sequence preserves
it overall. -/
theorem foldlM_keys_preserved {α : Type} (step : OldReg → α → Except String OldReg)
    (hstep : ∀ acc x r, step acc x = .ok r → oldKeys r = oldKeys acc) :
    ∀ (l : List α) (acc reg : OldReg),
      List.foldlM step acc l = .ok reg → oldKeys reg = oldKeys acc := by
  intro l
  induction l with
  | nil =>
      intro acc reg h
      rw [List.foldlM_nil] at h
      have hacc : acc = reg := by simpa [pure, Except.pure] using h
      rw [← hacc]
  | cons x xs ih =>
      intro acc reg h
      rw [List.foldlM_cons] at h
      cases hs : step acc x with
      | error e => rw [hs, except_bind_error] at h; exact absurd h (by simp)
      | ok acc' =>
          rw [hs, except_bind_ok] at h
          rw [ih acc' reg h, hstep acc x acc' hs]

/-- The `Class.init` never changes the key sequence. -/
theorem oldInit_keys (lang cid : String) (reg reg' : OldReg)
    (h : oldInit lang cid reg = .ok reg') : oldKeys reg' = oldKeys reg := by
  cases hg : oldGet reg cid with
  | none =>
      simp only [oldInit, hg] at h
      have : reg = reg' := by simpa using h
      rw [← this]
  | some cls =>
      simp only [oldInit, hg] at h
      set reg₁ : OldReg := if (GetComments cls.item lang).length > 0 then
          oldUpdate reg cid (fun c => { c with comment := (GetComments cls.item lang).head? })
        else reg with hreg₁
      have hk₁ : oldKeys reg₁ = oldKeys reg := by
        rw [hreg₁]
        by_cases hc : (GetComments cls.item lang).length > 0
        · rw [if_pos hc, oldUpdate_keys]
        · rw [if_neg hc]
      cases hsub : GetSubClassOf cls.item with
      | nil =>
          simp only [hsub] at h
          have : reg₁ = reg' := by simpa using h
          rw [← this, hk₁]
      | cons parentId ps =>
          simp only [hsub] at h
          cases hpg : oldGet reg₁ parentId with
          | none =>
              simp only [hpg] at h
              exact absurd h (by simp)
          | some p =>
              simp only [hpg] at h
              have : oldUpdate (oldUpdate reg₁ cid
                  (fun c => { c with parents := c.parents ++ [parentId] })) parentId
                  (fun p => { p with children := p.children ++ [cid] }) = reg' := by
                simpa using h
              rw [← this, oldUpdate_keys, oldUpdate_keys, hk₁]

/-- A successful owner attachment never changes the key sequence. -/
theorem enumAttach_keys (itemId : String) :
    ∀ (types : List String) (map m' : OldReg),
      enumAttach itemId types map = .ok (some m') → oldKeys m' = oldKeys map := by
  intro types
  induction types with
  | nil =>
      intro map m' h
      exact absurd h (by simp [enumAttach])
  | cons t rest ih =>
      intro map m' h
      by_cases hskip : (IsClassType t || IsDataType t) = true
      · rw [show enumAttach itemId (t :: rest) map = enumAttach itemId rest map by
            simp [enumAttach, hskip]] at h
        exact ih map m' h
      · simp only [enumAttach] at h
        rw [if_neg hskip] at h
        cases hg : oldGet map t with
        | none => rw [hg] at h; exact absurd h (by simp)
        | some cl =>
            rw [hg] at h
            have : oldUpdate map t (fun c => { c with enums := c.enums ++ [itemId] }) = m' := by
              simpa using h
            rw [← this, oldUpdate_keys]

/-- The `EnumValue.init` never changes the key sequence. -/
theorem enumInit_keys (lang : String) (item : JsonLdGraphItem) (map m' : OldReg) (b : Bool)
    (h : enumInit lang item map = .ok (m', b)) : oldKeys m' = oldKeys map := by
  simp only [enumInit] at h
  cases hg : GetTypes item with
  | error e => rw [hg, except_bind_error] at h; exact absurd h (by simp)
  | ok types =>
      rw [hg, except_bind_ok] at h
      cases ha : enumAttach item.id types map with
      | error e => rw [ha, except_bind_error] at h; exact absurd h (by simp)
      | ok res =>
          rw [ha, except_bind_ok] at h
          cases res with
          | some mm =>
              have hpair : (mm, true) = (m', b) := by simpa [pure, Except.pure] using h
              have h1 : m' = mm := (congrArg Prod.fst hpair).symm
              rw [h1]
              exact enumAttach_keys item.id types map mm ha
          | none =>
              have hpair : (map, false) = (m', b) := by simpa [pure, Except.pure] using h
              have h1 : m' = map := (congrArg Prod.fst hpair).symm
              rw [h1]

/-- A successful property resolution never changes the key sequence. -/
theorem propertyInit_keys (lang : String) (item : JsonLdGraphItem) (map reg' : OldReg)
    (h : propertyInit lang item map = .ok reg') : oldKeys reg' = oldKeys map := by
  simp only [propertyInit] at h
  cases hm : (ToArray item.rangeIncludes).mapM (fun ref =>
      match oldGet map ref.id with
      | none => Except.error ("Class with ID " ++ ref.id ++ " not found.")
      | some _ => Except.ok ref.id) with
  | error e => rw [hm, except_bind_error] at h; exact absurd h (by simp)
  | ok ts =>
      rw [hm, except_bind_ok] at h
      refine foldlM_keys_preserved (addPropStep item (GetComments item lang).head? ts)
        ?_ _ map reg' h
      intro acc x r hstep
      unfold addPropStep at hstep
      cases hg : oldGet acc x.id with
      | none => rw [hg] at hstep; exact absurd hstep (by simp)
      | some _ =>
          rw [hg] at hstep
          have : oldUpdate acc x.id (fun cl =>
              { cl with props := cl.props ++
                  [{ key := toScopedName item.id,
                     type := .propertyRange (GetComments item lang).head? ts }] }) = r := by
            simpa using hstep
          rw [← this, oldUpdate_keys]

/-- A successful pass-2 step never changes the key sequence. -/
theorem buildStep_keys (lang : String) (acc : OldReg) (item : JsonLdGraphItem)
    (r : OldReg) (h : buildStep lang acc item = .ok r) : oldKeys r = oldKeys acc := by
  simp only [buildStep] at h
  cases hic : IsClass item with
  | error e => rw [hic, except_bind_error] at h; exact absurd h (by simp)
  | ok b =>
      rw [hic, except_bind_ok] at h
      cases b with
      | false =>
          have : acc = r := by simpa [pure, Except.pure] using h
          rw [← this]
      | true =>
          simp only [Bool.not_true, Bool.false_eq_true, if_false] at h
          cases hg : oldGet acc item.id with
          | none => rw [hg] at h; exact absurd h (by simp)
          | some _ =>
              rw [hg] at h
              exact oldInit_keys lang item.id acc r h

/-- A successful enum-stage step never changes the key sequence. -/
theorem enumStep_keys (lang : String) (acc : OldReg) (item : JsonLdGraphItem)
    (r : OldReg) (h : enumStep lang acc item = .ok r) : oldKeys r = oldKeys acc := by
  simp only [enumStep] at h
  cases hg : GetTypes item with
  | error e => rw [hg, except_bind_error] at h; exact absurd h (by simp)
  | ok types =>
      rw [hg, except_bind_ok] at h
      by_cases he : (!HasEnumType types) = true
      · rw [if_pos he] at h
        have : acc = r := by simpa [pure, Except.pure] using h
        rw [← this]
      · rw [if_neg he] at h
        cases hei : enumInit lang item acc with
        | error e => rw [hei, except_bind_error] at h; exact absurd h (by simp)
        | ok pr =>
            rw [hei, except_bind_ok] at h
            obtain ⟨m', b⟩ := pr
            have : m' = r := by simpa [pure, Except.pure] using h
            rw [← this]
            exact enumInit_keys lang item acc m' b hei

/-- Pass 1 appends exactly the class-tagged items' identifiers, in input
order, after the keys already present. -/
theorem forward_fold_keys :
    ∀ (items : List JsonLdGraphItem) (acc reg : OldReg),
      (items.map JsonLdGraphItem.id).Nodup →
      (∀ it ∈ items, it.id ∉ oldKeys acc) →
      List.foldlM forwardStep acc items = .ok reg →
      oldKeys reg = oldKeys acc ++ (items.filter IsClassB).map JsonLdGraphItem.id := by
  intro items
  induction items with
  | nil =>
      intro acc reg _ _ h
      rw [List.foldlM_nil] at h
      have hacc : acc = reg := by simpa [pure, Except.pure] using h
      rw [← hacc]
      simp
  | cons it rest ih =>
      intro acc reg hnodup hfresh h
      rw [List.foldlM_cons] at h
      cases hs : forwardStep acc it with
      | error e => rw [hs, except_bind_error] at h; exact absurd h (by simp)
      | ok acc' =>
          rw [hs, except_bind_ok] at h
          simp only [forwardStep] at hs
          rw [List.map_cons, List.nodup_cons] at hnodup
          obtain ⟨hnotin, hnodup'⟩ := hnodup
          cases hic : IsClass it with
          | error e => rw [hic, except_bind_error] at hs; exact absurd hs (by simp)
          | ok b =>
              rw [hic, except_bind_ok] at hs
              have hicb : IsClassB it = b := by simp [IsClassB, hic]
              cases b with
              | false =>
                  have hacc : acc = acc' := by simpa [pure, Except.pure] using hs
                  have hres := ih acc' reg hnodup'
                    (fun it' hit' => hacc ▸ hfresh it' (List.mem_cons_of_mem _ hit')) h
                  rw [hres, ← hacc, List.filter_cons_of_neg (by simp [hicb])]
              | true =>
                  have hacc : oldSet acc it.id { item := it } = acc' := by
                    simpa [pure, Except.pure] using hs
                  have hkeys' : oldKeys acc' = oldKeys acc ++ [it.id] := by
                    rw [← hacc,
                      oldSet_keys_absent _ _ _ (hfresh it (List.mem_cons_self _ _))]
                  have hfresh' : ∀ it' ∈ rest, it'.id ∉ oldKeys acc' := by
                    intro it' hit'
                    rw [hkeys']
                    intro hmem
                    rcases List.mem_append.mp hmem with hmem' | hmem'
                    · exact hfresh it' (List.mem_cons_of_mem _ hit') hmem'
                    · have heq := List.mem_singleton.mp hmem'
                      exact hnotin (heq ▸ List.mem_map_of_mem JsonLdGraphItem.id hit')
                  have hres := ih acc' reg hnodup' hfresh' h
                  rw [hres, hkeys', List.filter_cons_of_pos (by simp [hicb])]
                  simp

/-- Pass 1 yields the catalogue keys followed by the class-tagged items'
identifiers in input order. -/
theorem ForwardDeclare_keys (items : List JsonLdGraphItem) (reg : OldReg)
    (hnodup : (items.map JsonLdGraphItem.id).Nodup)
    (hfresh : ∀ it ∈ items, it.id ∉ wellKnownTypes.map (fun wk => wk.item.id))
    (h : ForwardDeclareClasses items = .ok reg) :
    oldKeys reg = wellKnownTypes.map (fun wk => wk.item.id)
      ++ (items.filter IsClassB).map JsonLdGraphItem.id := by
  have hseed : oldKeys (wellKnownTypes.map (fun wk => (wk.item.id, wk)))
      = wellKnownTypes.map (fun wk => wk.item.id) := by
    rw [oldKeys, List.map_map]
    rfl
  simp only [ForwardDeclareClasses] at h
  cases hf : List.foldlM forwardStep (wellKnownTypes.map (fun wk => (wk.item.id, wk))) items with
  | error e => rw [hf, except_bind_error] at h; exact absurd h (by simp)
  | ok classes =>
      rw [hf, except_bind_ok] at h
      by_cases hlen : (classes.length == 0) = true
      · rw [if_pos hlen] at h; exact absurd h (by simp)
      · rw [if_neg hlen] at h
        have hcr : classes = reg := by simpa [pure, Except.pure] using h
        rw [← hcr,
          forward_fold_keys items _ classes hnodup
            (by intro it hit; rw [hseed]; exact hfresh it hit) hf,
          hseed]

/-- The two-phase class graph construction yields the catalogue keys followed
by the class-tagged items' identifiers in input order. -/
theorem ProcessClasses_keys (lang : String) (items : List JsonLdGraphItem) (reg : OldReg)
    (hnodup : (items.map JsonLdGraphItem.id).Nodup)
    (hfresh : ∀ it ∈ items, it.id ∉ wellKnownTypes.map (fun wk => wk.item.id))
    (h : ProcessClasses lang items = .ok reg) :
    oldKeys reg = wellKnownTypes.map (fun wk => wk.item.id)
      ++ (items.filter IsClassB).map JsonLdGraphItem.id := by
  simp only [ProcessClasses] at h
  cases hf : ForwardDeclareClasses items with
  | error e => rw [hf, except_bind_error] at h; exact absurd h (by simp)
  | ok c0 =>
      rw [hf, except_bind_ok] at h
      have h1 := ForwardDeclare_keys items c0 hnodup hfresh hf
      have h2 := foldlM_keys_preserved (buildStep lang)
        (fun acc x r hs => buildStep_keys lang acc x r hs) items c0 reg h
      rw [h2, h1]

/-- Counterexample for C5: the pipeline emits the class collection in registry
insertion order, not sorted.  On the Zebra/Apple input the emitted order has
`Zebra` before `Apple` (after the six builtins) although `Apple` sorts first
by name, so the class collection that feeds emission is not explicitly
sorted. -/
theorem emission_not_sorted_counterexample :
    mainClassOrder "en" [.item itemZebra, .item itemApple, .item itemName] =
      .ok emittedC5 ∧
    emittedC5.take 6 = wellKnownTypes.map (fun wk => wk.item.id) ∧
    sortedByScopedName (emittedC5.drop 6) = false ∧
    localeCompare (toScopedName "http://schema.org/Apple")
      (toScopedName "http://schema.org/Zebra") = -1 := by
  have hgrp : group [.item itemZebra, .item itemApple, .item itemName] [] =
      [("http://schema.org/Zebra", itemZebra), ("http://schema.org/Apple", itemApple),
       ("http://schema.org/name", itemName)] := by
    simp [group, groupItemStep, IsSourceOnly, IsSoftwareVersionOnly, IsCloseMatch,
      IsTestComment, mapGet, mapSet, itemZebra, itemApple, itemName]
  refine ⟨?_, by decide, by decide, by decide⟩
  simp only [mainClassOrder, resolveAll, hgrp]
  rfl

/-- C5 (amended): the resolution pipeline is a pure function of its input (two
runs agree by construction), and while properties, children and enum members
are sorted in the type synthesizer, the class collection is emitted in
registry insertion order: the seeded builtin catalogue first, then the
class-tagged topics in input order — not in sorted order. -/
theorem emission_insertion_order (lang : String) (items : List JsonLdGraphItem)
    (regF : OldReg)
    (hnodup : (items.map JsonLdGraphItem.id).Nodup)
    (hfresh : ∀ it ∈ items, it.id ∉ wellKnownTypes.map (fun wk => wk.item.id))
    (h : resolveItems lang items = .ok regF) :
    oldKeys regF = wellKnownTypes.map (fun wk => wk.item.id)
      ++ (items.filter IsClassB).map JsonLdGraphItem.id := by
  simp only [resolveItems] at h
  cases hc : ProcessClasses lang items with
  | error e => rw [hc, except_bind_error] at h; exact absurd h (by simp)
  | ok c1 =>
      rw [hc, except_bind_ok] at h
      cases hp : processProps lang items c1 with
      | error e => rw [hp, except_bind_error] at h; exact absurd h (by simp)
      | ok c2 =>
          rw [hp, except_bind_ok] at h
          have k3 := foldlM_keys_preserved (enumStep lang)
            (fun acc x r hs => enumStep_keys lang acc x r hs) items c2 regF h
          have k2 : oldKeys c2 = oldKeys c1 := by
            simp only [processProps] at hp
            cases hfp : FindProperties items with
            | error e => rw [hfp, except_bind_error] at hp; exact absurd hp (by simp)
            | ok props =>
                rw [hfp, except_bind_ok] at hp
                exact foldlM_keys_preserved (fun acc p => propertyInit lang p acc)
                  (fun acc x r hs => propertyInit_keys lang x acc r hs) props c1 c2 hp
          have k1 := ProcessClasses_keys lang items c1 hnodup hfresh hc
          rw [k3, k2, k1]

/-- Witness for the amended C5 on the Zebra/Apple input: the resolved registry
is exactly the seeded catalogue followed by the two class topics, and its key
sequence is the catalogue identifiers followed by the class identifiers in
input order. -/
theorem emission_insertion_order_witness :
    resolveItems "en" [itemZebra, itemApple, itemName] = .ok regC5 ∧
    oldKeys regC5 = wellKnownTypes.map (fun wk => wk.item.id)
      ++ ([itemZebra, itemApple, itemName].filter IsClassB).map JsonLdGraphItem.id := by
  have hres : resolveItems "en" [itemZebra, itemApple, itemName] = .ok regC5 := by rfl
  exact ⟨hres,
    emission_insertion_order "en" [itemZebra, itemApple, itemName] regC5
      (by decide) (by decide) hres⟩

end SchemaDts
